import Mathlib

/-!
Verification of the admission-control pipeline of the pizza-apiserver
repository: the plugin registry, config-stream splitter, plugin
instantiation, bulk chain construction, and the chain executor
(`vendor/k8s.io/apiserver/pkg/admission/chain.go` and `plugins.go`),
shallowly embedded in Lean.

Go interface values that may be `nil` are embedded as `Option`; Go
`error` results are embedded as an explicit error type whose
constructors mirror the `fmt.Errorf` wrapping done by the source.
Side effects (invoking a member's `Admit`/`Validate`, invoking an
initializer) are recorded in explicit traces returned alongside the
Go return values, so that statements about "which members were
invoked, in which order" can be made.
-/

namespace Admission

/-- Embeds `admission.Operation`, the closed enumeration of request operations
-/
inductive Operation where
  | create
  | update
  | delete
  | connect
deriving DecidableEq, Repr

/-- The part of `admission.Attributes` read by the chain executor:
`GetOperation()`. -/
structure Attributes where
  operation : Operation
deriving DecidableEq, Repr

/-- Embeds `admission.ObjectInterfaces`, which is passed through opaquely by the code
under verification. -/
abbrev ObjectInterfaces := Unit

/-- Go `error` values produced by the admission code.  `msg` embeds an
arbitrary error (a plugin rejection, an I/O failure, a factory failure);
the remaining constructors mirror the `fmt.Errorf` calls in
`plugins.go`, which wrap a cause and record the plugin name. -/
inductive Err where
  /-- an arbitrary underlying error -/
  | msg (s : String) : Err
  /-- Mirrors `fmt.Errorf("unknown admission plugin: %s", name)` -/
  | unknownAdmissionPlugin (name : String) : Err
  /-- Mirrors `fmt.Errorf("couldn't init admission plugin %q: %v", name, err)` -/
  | couldNotInitPlugin (name : String) (cause : Err) : Err
  /-- Mirrors `fmt.Errorf("failed to initialize admission plugin %q: %v", name, err)` -/
  | failedToInitialize (name : String) (cause : Err) : Err
deriving DecidableEq, Repr

/-- An `admission.Interface` value (a plugin instance).  `Handles` is the
mandatory capability; the optional fields model whether the dynamic type
additionally implements `MutationInterface` (`Admit`),
`ValidationInterface` (`Validate`) and `InitializationValidator`
(`ValidateInitialization`): `none` means the type assertion fails,
`some f` means it succeeds and the method behaves as `f`. -/
structure Plugin where
  Handles : Operation → Bool
  Admit : Option (Attributes → ObjectInterfaces → Option Err)
  Validate : Option (Attributes → ObjectInterfaces → Option Err)
  ValidateInitialization : Option (Option Err)

/-- Embeds `chainAdmissionHandler` (chain.go): a chain of admission handlers
(`chain.go`). -/
abbrev chainAdmissionHandler := List Plugin

/-- Embeds `chainAdmissionHandler.Admit` (chain.go lines 30–43): iterate the
members; skip a member whose `Handles` is false for the request's
operation; if the member implements `MutationInterface`, call its
`Admit` and return the first non-nil error immediately.  The first
component is the effect trace: the members whose `Admit` method was
invoked, in invocation order; the second component is the Go return
value. -/
def chainAdmissionHandler.AdmitChain :
    chainAdmissionHandler → Attributes → ObjectInterfaces → List Plugin × Option Err
  | [], _, _ => ([], none)
  | handler :: rest, a, o =>
    if handler.Handles a.operation = false then
      chainAdmissionHandler.AdmitChain rest a o
    else
      match handler.Admit with
      | none => chainAdmissionHandler.AdmitChain rest a o
      | some mutatorAdmit =>
        match mutatorAdmit a o with
        | some err => ([handler], some err)
        | none =>
          let r := chainAdmissionHandler.AdmitChain rest a o
          (handler :: r.1, r.2)

/-- Embeds `chainAdmissionHandler.Validate` (chain.go lines 46–61): same
iteration, over the `ValidationInterface` capability.  The first
component is the trace of members whose `Validate` method was invoked,
in invocation order. -/
def chainAdmissionHandler.ValidateChain :
    chainAdmissionHandler → Attributes → ObjectInterfaces → List Plugin × Option Err
  | [], _, _ => ([], none)
  | handler :: rest, a, o =>
    if handler.Handles a.operation = false then
      chainAdmissionHandler.ValidateChain rest a o
    else
      match handler.Validate with
      | none => chainAdmissionHandler.ValidateChain rest a o
      | some validator =>
        match validator a o with
        | some err => ([handler], some err)
        | none =>
          let r := chainAdmissionHandler.ValidateChain rest a o
          (handler :: r.1, r.2)

/-- Embeds `chainAdmissionHandler.Handles` (chain.go lines 64–71): true iff
some member handles the operation. -/
def chainAdmissionHandler.HandlesChain : chainAdmissionHandler → Operation → Bool
  | [], _ => false
  | handler :: rest, operation =>
    if handler.Handles operation then true
    else chainAdmissionHandler.HandlesChain rest operation

/-- The result of invoking a member's `Admit` method: `none` when the
member does not implement `MutationInterface` (it is not called). -/
def admitCall (a : Attributes) (o : ObjectInterfaces) (p : Plugin) : Option Err :=
  match p.Admit with
  | some f => f a o
  | none => none

/-- The result of invoking a member's `Validate` method. -/
def validateCall (a : Attributes) (o : ObjectInterfaces) (p : Plugin) : Option Err :=
  match p.Validate with
  | some f => f a o
  | none => none

/-- Reference fail-fast runner: invoke `call` on each element in list
order, stopping at the first `some` error; return the invoked elements
in order together with the final result. -/
def failFastRun (call : Plugin → Option Err) : List Plugin → List Plugin × Option Err
  | [] => ([], none)
  | p :: rest =>
    match call p with
    | some e => ([p], some e)
    | none =>
      let r := failFastRun call rest
      (p :: r.1, r.2)

theorem failFastRun_all_none (call : Plugin → Option Err) (l : List Plugin)
    (h : ∀ p ∈ l, call p = none) : failFastRun call l = (l, none) := by
  induction l with
  | nil => rfl
  | cons p rest ih =>
    have hp : call p = none := h p (List.mem_cons_self p rest)
    simp [failFastRun, hp, ih fun q hq => h q (List.mem_cons_of_mem p hq)]

theorem failFastRun_none_trace (call : Plugin → Option Err) (l : List Plugin)
    (h : (failFastRun call l).2 = none) : (failFastRun call l).1 = l := by
  induction l with
  | nil => rfl
  | cons p rest ih =>
    cases hp : call p with
    | some e => simp [failFastRun, hp] at h
    | none =>
      simp only [failFastRun, hp] at h ⊢
      simp [ih h]

theorem failFastRun_err (call : Plugin → Option Err) (l : List Plugin) (e : Err)
    (h : (failFastRun call l).2 = some e) :
    ∃ l₁ p l₂, l = l₁ ++ p :: l₂ ∧ (failFastRun call l).1 = l₁ ++ [p] ∧
      call p = some e ∧ ∀ q ∈ l₁, call q = none := by
  induction l with
  | nil => simp [failFastRun] at h
  | cons p rest ih =>
    cases hp : call p with
    | some e' =>
      simp only [failFastRun, hp] at h ⊢
      refine ⟨[], p, rest, by simp, by simp, ?_, by simp⟩
      rw [hp]; exact congrArg some (Option.some.inj h)
    | none =>
      simp only [failFastRun, hp] at h ⊢
      obtain ⟨l₁, q, l₂, hsplit, htrace, hcall, hnone⟩ := ih h
      refine ⟨p :: l₁, q, l₂, by simp [hsplit], by simp [htrace], hcall, ?_⟩
      intro x hx
      rcases List.mem_cons.mp hx with hx | hx
      · rw [hx]; exact hp
      · exact hnone x hx

theorem failFastRun_trace_sublist (call : Plugin → Option Err) (l : List Plugin) :
    (failFastRun call l).1.Sublist l := by
  induction l with
  | nil => simp [failFastRun]
  | cons p rest ih =>
    cases hp : call p with
    | some e => simp [failFastRun, hp]
    | none =>
      simp only [failFastRun, hp]
      exact List.Sublist.cons₂ p ih

/-- The members of `chain` that handle the operation and implement the
mutation capability, in chain order: exactly those whose `Admit`
method the chain executor invokes. -/
def mutatingMembers (chain : chainAdmissionHandler) (op : Operation) : List Plugin :=
  chain.filter fun p => p.Handles op && p.Admit.isSome

/-- The members of `chain` that handle the operation and implement the
validation capability, in chain order. -/
def validatingMembers (chain : chainAdmissionHandler) (op : Operation) : List Plugin :=
  chain.filter fun p => p.Handles op && p.Validate.isSome

theorem admitChain_eq_failFastRun (chain : chainAdmissionHandler)
    (a : Attributes) (o : ObjectInterfaces) :
    chainAdmissionHandler.AdmitChain chain a o
      = failFastRun (admitCall a o) (mutatingMembers chain a.operation) := by
  induction chain with
  | nil => rfl
  | cons handler rest ih =>
    by_cases hH : handler.Handles a.operation = false
    · simp [chainAdmissionHandler.AdmitChain, mutatingMembers, hH, ih,
        List.filter_cons]
    · have hH' : handler.Handles a.operation = true := by
        cases h : handler.Handles a.operation
        · exact absurd h hH
        · rfl
      cases hA : handler.Admit with
      | none =>
        simp [chainAdmissionHandler.AdmitChain, mutatingMembers, hH, hH', hA, ih,
          List.filter_cons]
      | some mutatorAdmit =>
        have hmem : mutatingMembers (handler :: rest) a.operation
            = handler :: mutatingMembers rest a.operation := by
          simp [mutatingMembers, List.filter_cons, hH', hA]
        have hcall : admitCall a o handler = mutatorAdmit a o := by
          simp [admitCall, hA]
        cases hres : mutatorAdmit a o with
        | some e =>
          simp [chainAdmissionHandler.AdmitChain, hH, hA, hres, hmem,
            failFastRun, hcall]
        | none =>
          simp [chainAdmissionHandler.AdmitChain, hH, hA, hres, hmem,
            failFastRun, hcall, ih]

theorem validateChain_eq_failFastRun (chain : chainAdmissionHandler)
    (a : Attributes) (o : ObjectInterfaces) :
    chainAdmissionHandler.ValidateChain chain a o
      = failFastRun (validateCall a o) (validatingMembers chain a.operation) := by
  induction chain with
  | nil => rfl
  | cons handler rest ih =>
    by_cases hH : handler.Handles a.operation = false
    · simp [chainAdmissionHandler.ValidateChain, validatingMembers, hH, ih,
        List.filter_cons]
    · have hH' : handler.Handles a.operation = true := by
        cases h : handler.Handles a.operation
        · exact absurd h hH
        · rfl
      cases hA : handler.Validate with
      | none =>
        simp [chainAdmissionHandler.ValidateChain, validatingMembers, hH, hH', hA,
          ih, List.filter_cons]
      | some validator =>
        have hmem : validatingMembers (handler :: rest) a.operation
            = handler :: validatingMembers rest a.operation := by
          simp [validatingMembers, List.filter_cons, hH', hA]
        have hcall : validateCall a o handler = validator a o := by
          simp [validateCall, hA]
        cases hres : validator a o with
        | some e =>
          simp [chainAdmissionHandler.ValidateChain, hH, hA, hres, hmem,
            failFastRun, hcall]
        | none =>
          simp [chainAdmissionHandler.ValidateChain, hH, hA, hres, hmem,
            failFastRun, hcall, ih]


/-- A handler that handles only Create requests (witness material). -/
def handlesCreateOnly : Operation → Bool
  | Operation.create => true
  | _ => false

/-- A handler that handles only Update requests (witness material). -/
def handlesUpdateOnly : Operation → Bool
  | Operation.update => true
  | _ => false

/-- Witness plugin: mutation-only, handles Create, rejects with "boom". -/
def wMutRejecting : Plugin :=
  { Handles := handlesCreateOnly
    Admit := some fun _ _ => some (Err.msg "boom")
    Validate := none
    ValidateInitialization := none }

/-- Witness plugin: validation-only, handles Create, accepts. -/
def wValAccepting : Plugin :=
  { Handles := handlesCreateOnly
    Admit := none
    Validate := some fun _ _ => none
    ValidateInitialization := none }

/-- Witness plugin: handles Update only, both capabilities, accepts. -/
def wBothUpdate : Plugin :=
  { Handles := handlesUpdateOnly
    Admit := some fun _ _ => none
    Validate := some fun _ _ => none
    ValidateInitialization := none }

/-- Witness plugin: validation-only, handles Create, rejects with "deny". -/
def wValRejecting : Plugin :=
  { Handles := handlesCreateOnly
    Admit := none
    Validate := some fun _ _ => some (Err.msg "deny")
    ValidateInitialization := none }

/-- C1: `chainAdmissionHandler.Admit` iterates the members in list order,
skips every member whose `Handles` is false for the request's operation,
invokes `Admit` only on members implementing the mutation capability
(conjunct 1: the run equals the fail-fast run over exactly the
mutation-capable handling members, in chain order); if no invoked member
errors it returns nil and every mutation-capable handling member was
invoked exactly once, in list order (conjunct 2); it returns the first
non-nil error immediately, no later member being invoked (conjunct 3). -/
theorem chainAdmit_spec (chain : chainAdmissionHandler) (a : Attributes)
    (o : ObjectInterfaces) :
    chainAdmissionHandler.AdmitChain chain a o
        = failFastRun (admitCall a o) (mutatingMembers chain a.operation)
    ∧ ((chainAdmissionHandler.AdmitChain chain a o).2 = none →
        (chainAdmissionHandler.AdmitChain chain a o).1
          = mutatingMembers chain a.operation)
    ∧ (∀ e, (chainAdmissionHandler.AdmitChain chain a o).2 = some e →
        ∃ l₁ p l₂, mutatingMembers chain a.operation = l₁ ++ p :: l₂ ∧
          (chainAdmissionHandler.AdmitChain chain a o).1 = l₁ ++ [p] ∧
          admitCall a o p = some e ∧ ∀ q ∈ l₁, admitCall a o q = none) := by
  have heq := admitChain_eq_failFastRun chain a o
  refine ⟨heq, ?_, ?_⟩
  · intro h
    rw [heq] at h ⊢
    exact failFastRun_none_trace _ _ h
  · intro e h
    rw [heq] at h ⊢
    obtain ⟨l₁, p, l₂, hsplit, htrace, hcall, hnone⟩ := failFastRun_err _ _ _ h
    exact ⟨l₁, p, l₂, hsplit, htrace, hcall, hnone⟩

/-- Witness for C1 at a concrete chain: the chain `[wMutRejecting,
wValAccepting, wBothUpdate]` on a Create request invokes only the first
member, whose rejection is returned unchanged and fail-fast. -/
theorem chainAdmit_spec_witness :
    ∃ l₁ p l₂,
      mutatingMembers [wMutRejecting, wValAccepting, wBothUpdate] Operation.create
          = l₁ ++ p :: l₂ ∧
      (chainAdmissionHandler.AdmitChain [wMutRejecting, wValAccepting, wBothUpdate]
          ⟨Operation.create⟩ ()).1 = l₁ ++ [p] ∧
      admitCall ⟨Operation.create⟩ () p = some (Err.msg "boom") ∧
      ∀ q ∈ l₁, admitCall ⟨Operation.create⟩ () q = none :=
  (chainAdmit_spec [wMutRejecting, wValAccepting, wBothUpdate]
    ⟨Operation.create⟩ ()).2.2 (Err.msg "boom") rfl

/-- C5: `chainAdmissionHandler.Validate` applies the same in-order,
`Handles`-skipping, first-error fail-fast policy over the validation
capability only (conjunct 1); members not implementing validation
(in particular mutation-only members) are never invoked in this pass
(conjunct 2); the first non-nil `Validate` error is returned with no
later member invoked (conjunct 3). -/
theorem chainValidate_spec (chain : chainAdmissionHandler) (a : Attributes)
    (o : ObjectInterfaces) :
    chainAdmissionHandler.ValidateChain chain a o
        = failFastRun (validateCall a o) (validatingMembers chain a.operation)
    ∧ (∀ q ∈ (chainAdmissionHandler.ValidateChain chain a o).1, q.Validate.isSome)
    ∧ ((chainAdmissionHandler.ValidateChain chain a o).2 = none →
        (chainAdmissionHandler.ValidateChain chain a o).1
          = validatingMembers chain a.operation)
    ∧ (∀ e, (chainAdmissionHandler.ValidateChain chain a o).2 = some e →
        ∃ l₁ p l₂, validatingMembers chain a.operation = l₁ ++ p :: l₂ ∧
          (chainAdmissionHandler.ValidateChain chain a o).1 = l₁ ++ [p] ∧
          validateCall a o p = some e ∧ ∀ q ∈ l₁, validateCall a o q = none) := by
  have heq := validateChain_eq_failFastRun chain a o
  refine ⟨heq, ?_, ?_, ?_⟩
  · intro q hq
    rw [heq] at hq
    have hsub := failFastRun_trace_sublist (validateCall a o)
      (validatingMembers chain a.operation)
    have hmem : q ∈ validatingMembers chain a.operation := hsub.mem hq
    have := List.of_mem_filter hmem
    exact (Bool.and_eq_true _ _ ▸ this).2
  · intro h
    rw [heq] at h ⊢
    exact failFastRun_none_trace _ _ h
  · intro e h
    rw [heq] at h ⊢
    obtain ⟨l₁, p, l₂, hsplit, htrace, hcall, hnone⟩ := failFastRun_err _ _ _ h
    exact ⟨l₁, p, l₂, hsplit, htrace, hcall, hnone⟩

/-- Witness for C5 at a concrete chain: on a Create request the
validation pass over `[wMutRejecting, wValRejecting, wBothUpdate]` skips
the mutation-only member and returns the validation rejection. -/
theorem chainValidate_spec_witness :
    ∃ l₁ p l₂,
      validatingMembers [wMutRejecting, wValRejecting, wBothUpdate] Operation.create
          = l₁ ++ p :: l₂ ∧
      (chainAdmissionHandler.ValidateChain [wMutRejecting, wValRejecting, wBothUpdate]
          ⟨Operation.create⟩ ()).1 = l₁ ++ [p] ∧
      validateCall ⟨Operation.create⟩ () p = some (Err.msg "deny") ∧
      ∀ q ∈ l₁, validateCall ⟨Operation.create⟩ () q = none :=
  (chainValidate_spec [wMutRejecting, wValRejecting, wBothUpdate]
    ⟨Operation.create⟩ ()).2.2.2 (Err.msg "deny") rfl

/-- Embeds `io.Reader` values as the admission code consumes them: a
reader is either the nil interface (or a typed nil, which
`splitStream`'s reflect check treats identically), a byte buffer that
reads to completion, or a reader whose `ReadAll` fails. -/
inductive Reader where
  | nilReader : Reader
  | buffer (data : List UInt8) : Reader
  | failing (cause : Err) : Reader
deriving DecidableEq, Repr

/-- True exactly for the nil reader: the `config == nil ||
reflect.ValueOf(config).IsNil()` guard of `splitStream`. -/
def Reader.isNilReader : Reader → Bool
  | Reader.nilReader => true
  | _ => false

/-- Embeds `ioutil.ReadAll` on the reader values above.  It is only
invoked on non-nil readers. -/
def ioutilReadAll : Reader → Except Err (List UInt8)
  | Reader.nilReader => Except.ok []
  | Reader.buffer data => Except.ok data
  | Reader.failing cause => Except.error cause

/-- Embeds `splitStream` (plugins.go lines 116–127): nil in, two nils
out; otherwise read the whole stream and return two buffers over the
same bytes, or the read error. -/
def splitStream (config : Reader) : Except Err (Reader × Reader) :=
  if config.isNilReader then Except.ok (Reader.nilReader, Reader.nilReader)
  else
    match ioutilReadAll config with
    | Except.error e => Except.error e
    | Except.ok configBytes =>
      Except.ok (Reader.buffer configBytes, Reader.buffer configBytes)

/-- Embeds `admission.Factory`: a function from an optional config
stream to `(Interface, error)`. -/
def Factory := Reader → Option Plugin × Option Err

/-- Embeds the `Plugins` registry.  The Go `map[string]Factory` starts
out nil (`NewPlugins`); a non-nil map is a list of entries whose keys
`Register` keeps distinct.  The mutex only serializes access and has no
observable effect on the sequential semantics embedded here. -/
structure Plugins where
  registry : Option (List (String × Factory))

/-- Embeds `NewPlugins`: nil registry. -/
def NewPlugins : Plugins := ⟨none⟩

/-- Map lookup on the registry entry list (Go `ps.registry[name]`). -/
def registryFind : List (String × Factory) → String → Option Factory
  | [], _ => none
  | kv :: rest, name => if kv.1 = name then some kv.2 else registryFind rest name

/-- The keys of the registry, in registration order (a nil registry has
none).  Go iterates them in unspecified order; `Registered` sorts them,
and the theorems below show the result does not depend on this order. -/
def registryKeys (ps : Plugins) : List String :=
  match ps.registry with
  | none => []
  | some reg => reg.map Prod.fst

/-- Embeds `Plugins.Registered` (plugins.go lines 61–70): collect the
registered names and sort them ascending (`sort.Strings`). -/
def Plugins.Registered (ps : Plugins) : List String :=
  List.insertionSort (fun a b => a ≤ b) (registryKeys ps)

/-- Outcome of `Plugins.Register`: either the process-terminating
`klog.Fatalf("Admission plugin %q was registered twice", name)` path,
or the updated registry. -/
inductive RegisterOutcome where
  | fatal (name : String) : RegisterOutcome
  | ok (ps : Plugins) : RegisterOutcome

/-- Embeds `Plugins.Register` (plugins.go lines 75–89): on a non-nil
registry, a name already present is fatal; otherwise (allocating the
map first when it is nil) the factory is stored under the name. -/
def Plugins.Register (ps : Plugins) (name : String) (plugin : Factory) :
    RegisterOutcome :=
  match ps.registry with
  | some reg =>
    match registryFind reg name with
    | some _ => RegisterOutcome.fatal name
    | none => RegisterOutcome.ok ⟨some (reg ++ [(name, plugin)])⟩
  | none => RegisterOutcome.ok ⟨some ([] ++ [(name, plugin)])⟩

/-- Embeds the global `PluginEnabledFn` hook type
(`PluginEnabledFunc`).  The mutable package variable is passed as an
explicit argument to the functions that consult it. -/
def PluginEnabledFunc := String → Reader → Bool

/-- The default `PluginEnabledFn`: every plugin is enabled. -/
def PluginEnabledFnDefault : PluginEnabledFunc := fun _ _ => true

/-- Registry lookup including the nil-map case (Go lookup on a nil map
reports not found). -/
def Plugins.lookupFactory (ps : Plugins) (name : String) : Option Factory :=
  match ps.registry with
  | none => none
  | some reg => registryFind reg name

/-- Embeds `Plugins.getPlugin` (plugins.go lines 95–113): the three-way
result `(plugin, found, error)`.  Unknown name: `(nil, false, nil)`;
split failure: `(nil, true, err)`; disabled: `(nil, true, nil)`;
otherwise the factory runs on the second half of the split stream. -/
def Plugins.getPlugin (ps : Plugins) (enabledFn : PluginEnabledFunc)
    (name : String) (config : Reader) : Option Plugin × Bool × Option Err :=
  match ps.lookupFactory name with
  | none => (none, false, none)
  | some f =>
    match splitStream config with
    | Except.error e => (none, true, some e)
    | Except.ok (config1, config2) =>
      if enabledFn name config1 = false then (none, true, none)
      else
        let r := f config2
        (r.1, true, r.2)

/-- Embeds `PluginInitializers`: the initializer set passed to
`InitPlugin`, each member embedded by the state transformation its
`Initialize` method performs on the plugin it is given. -/
def PluginInitializers := List (Plugin → Plugin)

/-- Embeds `PluginInitializers.Initialize` (plugins.go lines 214–218):
invoke every member on the plugin, in order.  The first component is
the plugin after all members ran (a nil plugin stays nil: a member
cannot replace the caller's interface value); the second is the effect
trace, one entry per member invocation recording the argument it
received. -/
def PluginInitializers.Initialize :
    PluginInitializers → Option Plugin → Option Plugin × List (Option Plugin)
  | [], plugin => (plugin, [])
  | p :: rest, plugin =>
    let plugin1 := Option.map p plugin
    let r := PluginInitializers.Initialize rest plugin1
    (r.1, plugin :: r.2)

/-- Embeds `ValidateInitialization` (plugins.go lines 202–210): if the
plugin implements `InitializationValidator`, return its
`ValidateInitialization()` result; a nil plugin or one not implementing
the capability yields nil.  (The type assertion on a nil interface
fails.) -/
def ValidateInitialization (plugin : Option Plugin) : Option Err :=
  match plugin with
  | none => none
  | some p =>
    match p.ValidateInitialization with
    | some result => result
    | none => none

/-- Embeds `Plugins.InitPlugin` (plugins.go lines 175–197).  The first
component is the Go return value `(Interface, error)`; the second is
the initializer-invocation trace of the single
`pluginInitializer.Initialize(plugin)` call site. -/
def Plugins.InitPlugin (ps : Plugins) (enabledFn : PluginEnabledFunc)
    (name : String) (config : Reader) (pluginInitializer : PluginInitializers) :
    (Option Plugin × Option Err) × List (Option Plugin) :=
  if name = "" then ((none, none), [])
  else
    match ps.getPlugin enabledFn name config with
    | (_, _, some e) => ((none, some (Err.couldNotInitPlugin name e)), [])
    | (_, false, none) => ((none, some (Err.unknownAdmissionPlugin name)), [])
    | (plugin, true, none) =>
      let r := PluginInitializers.Initialize pluginInitializer plugin
      match ValidateInitialization r.1 with
      | some e => ((none, some (Err.failedToInitialize name e)), r.2)
      | none => ((r.1, none), r.2)

/-- Embeds the `ConfigProvider` contract used by `NewFromPlugins`:
`ConfigFor(name)` yields a reader or an error. -/
def ConfigProvider := String → Except Err Reader

/-- Embeds the `Decorator` contract: `Decorate(plugin, name)` returns
the wrapper appended to the chain. -/
def Decorator := Plugin → String → Plugin

/-- The handler appended for an instantiated plugin: the decorated
wrapper when a decorator is supplied, the plugin itself otherwise. -/
def decoratePlugin (decorator : Option Decorator) (plugin : Plugin)
    (pluginName : String) : Plugin :=
  match decorator with
  | some d => d plugin pluginName
  | none => plugin

/-- The loop body of `NewFromPlugins` (plugins.go lines 132–171), with
the accumulated `handlers`, `mutationPlugins` and `validationPlugins`
lists made explicit. -/
def newFromPluginsLoop (ps : Plugins) (enabledFn : PluginEnabledFunc)
    (configProvider : ConfigProvider) (pluginInitializer : PluginInitializers)
    (decorator : Option Decorator) :
    List String → List Plugin → List String → List String →
      Except Err (List Plugin × List String × List String)
  | [], handlers, mutationPlugins, validationPlugins =>
    Except.ok (handlers, mutationPlugins, validationPlugins)
  | pluginName :: rest, handlers, mutationPlugins, validationPlugins =>
    match configProvider pluginName with
    | Except.error e => Except.error e
    | Except.ok pluginConfig =>
      match (ps.InitPlugin enabledFn pluginName pluginConfig pluginInitializer).1 with
      | (_, some e) => Except.error e
      | (none, none) =>
        newFromPluginsLoop ps enabledFn configProvider pluginInitializer decorator
          rest handlers mutationPlugins validationPlugins
      | (some plugin, none) =>
        newFromPluginsLoop ps enabledFn configProvider pluginInitializer decorator
          rest
          (handlers ++ [decoratePlugin decorator plugin pluginName])
          (if plugin.Admit.isSome then mutationPlugins ++ [pluginName]
           else mutationPlugins)
          (if plugin.Validate.isSome then validationPlugins ++ [pluginName]
           else validationPlugins)

/-- Embeds `Plugins.NewFromPlugins`: run the loop from empty
accumulators.  On success the first component is the chain
(`chainAdmissionHandler(handlers)`), the others the logged
mutation-capable and validation-capable name tallies. -/
def Plugins.NewFromPlugins (ps : Plugins) (enabledFn : PluginEnabledFunc)
    (pluginNames : List String) (configProvider : ConfigProvider)
    (pluginInitializer : PluginInitializers) (decorator : Option Decorator) :
    Except Err (List Plugin × List String × List String) :=
  newFromPluginsLoop ps enabledFn configProvider pluginInitializer decorator
    pluginNames [] [] []

/-- C6: `splitStream` is a faithful duplicator: nil input yields
`(nil, nil, nil)`; an input of N bytes that reads without error yields
two readers over the same N bytes, each of which independently reads
back exactly those bytes; a read failure yields the error and no
readers. -/
theorem splitStream_spec :
    splitStream Reader.nilReader = Except.ok (Reader.nilReader, Reader.nilReader)
    ∧ (∀ data, splitStream (Reader.buffer data)
          = Except.ok (Reader.buffer data, Reader.buffer data)
        ∧ ioutilReadAll (Reader.buffer data) = Except.ok data)
    ∧ (∀ cause, splitStream (Reader.failing cause) = Except.error cause) :=
  ⟨rfl, fun _ => ⟨rfl, rfl⟩, fun _ => rfl⟩

theorem registryFind_eq_none_iff (reg : List (String × Factory)) (name : String) :
    registryFind reg name = none ↔ name ∉ reg.map Prod.fst := by
  induction reg with
  | nil => simp [registryFind]
  | cons kv rest ih =>
    by_cases hk : kv.1 = name
    · simp [registryFind, hk]
    · simp [registryFind, hk, ih, Ne.symm hk]

/-- A trivial factory used by concrete witnesses. -/
def wFactoryNilOk : Factory := fun _ => (none, none)

/-- A one-entry registry used by concrete witnesses. -/
def wRegA : Plugins := ⟨some [("a", wFactoryNilOk)]⟩

/-- C8: registering an already-present name reaches the fatal
duplicate-registration outcome (and in particular never yields an
updated registry, so the existing factory is not overwritten);
registering an absent name always succeeds, appending the entry — on
the nil (fresh) registry the map is first allocated, so the stored
entries are exactly `[(name, f)]`; and registering two distinct fresh
names in sequence never conflicts. -/
theorem Register_spec (ps : Plugins) (name : String) (f : Factory) :
    (name ∈ registryKeys ps → ps.Register name f = RegisterOutcome.fatal name)
    ∧ (name ∉ registryKeys ps →
        ps.Register name f
          = RegisterOutcome.ok ⟨some ((ps.registry.getD []) ++ [(name, f)])⟩)
    ∧ (∀ m g, name ∉ registryKeys ps → m ∉ registryKeys ps → m ≠ name →
        ∃ ps1, ps.Register name f = RegisterOutcome.ok ps1
          ∧ ∃ ps2, ps1.Register m g = RegisterOutcome.ok ps2) := by
  refine ⟨?_, ?_, ?_⟩
  · intro hmem
    match hr : ps.registry with
    | none => simp [registryKeys, hr] at hmem
    | some reg =>
      have hmem' : name ∈ reg.map Prod.fst := by simpa [registryKeys, hr] using hmem
      have hfind : registryFind reg name ≠ none := by
        rw [Ne, registryFind_eq_none_iff]
        exact fun h => h hmem'
      match hf : registryFind reg name with
      | none => exact absurd hf hfind
      | some f0 => simp [Plugins.Register, hr, hf]
  · intro hmem
    match hr : ps.registry with
    | none => simp [Plugins.Register, hr]
    | some reg =>
      have hmem' : name ∉ reg.map Prod.fst := by simpa [registryKeys, hr] using hmem
      have hfind : registryFind reg name = none :=
        (registryFind_eq_none_iff reg name).mpr hmem'
      simp [Plugins.Register, hr, hfind]
  · intro m g hn hm hmn
    match hr : ps.registry with
    | none =>
      refine ⟨⟨some [(name, f)]⟩, by simp [Plugins.Register, hr], ?_⟩
      have hfind : registryFind [(name, f)] m = none := by
        simp [registryFind, Ne.symm hmn]
      exact ⟨⟨some ([(name, f)] ++ [(m, g)])⟩, by simp [Plugins.Register, hfind]⟩
    | some reg =>
      have hn' : name ∉ reg.map Prod.fst := by simpa [registryKeys, hr] using hn
      have hm' : m ∉ reg.map Prod.fst := by simpa [registryKeys, hr] using hm
      refine ⟨⟨some (reg ++ [(name, f)])⟩,
        by simp [Plugins.Register, hr, (registryFind_eq_none_iff reg name).mpr hn'], ?_⟩
      have hfind : registryFind (reg ++ [(name, f)]) m = none := by
        rw [registryFind_eq_none_iff]
        simp [hm', hmn]
      exact ⟨⟨some ((reg ++ [(name, f)]) ++ [(m, g)])⟩,
        by simp [Plugins.Register, hfind]⟩

/-- Witness for C8: on the fresh registry, registering "a" succeeds;
on a registry already holding "a", registering "a" again is fatal. -/
theorem Register_spec_witness :
    ("a" ∉ registryKeys NewPlugins
      ∧ NewPlugins.Register "a" wFactoryNilOk
          = RegisterOutcome.ok
              ⟨some ((NewPlugins.registry.getD []) ++ [("a", wFactoryNilOk)])⟩)
    ∧ ("a" ∈ registryKeys wRegA
      ∧ wRegA.Register "a" wFactoryNilOk = RegisterOutcome.fatal "a") :=
  ⟨⟨by decide, (Register_spec NewPlugins "a" wFactoryNilOk).2.1 (by decide)⟩,
   ⟨by decide, (Register_spec wRegA "a" wFactoryNilOk).1 (by decide)⟩⟩

/-- C9: whenever the registry keys are distinct (an invariant of the Go
map), `Registered` returns a sorted-ascending, duplicate-free list with
exactly the registered names as members; and any two registries whose
key lists are permutations of one another (in particular, the same
names registered in any order) produce the same `Registered` output. -/
theorem Registered_spec (ps : Plugins) (h : (registryKeys ps).Nodup) :
    (Plugins.Registered ps).Sorted (fun a b => a ≤ b)
    ∧ (Plugins.Registered ps).Nodup
    ∧ (∀ n, n ∈ Plugins.Registered ps ↔ n ∈ registryKeys ps)
    ∧ ∀ ps2, List.Perm (registryKeys ps2) (registryKeys ps) →
        Plugins.Registered ps2 = Plugins.Registered ps := by
  refine ⟨List.sorted_insertionSort _ _, ?_, ?_, ?_⟩
  · exact ((List.perm_insertionSort _ _).nodup_iff).mpr h
  · intro n
    exact List.mem_insertionSort _
  · intro ps2 hperm
    exact List.eq_of_perm_of_sorted
      (r := fun a b : String => a ≤ b)
      (((List.perm_insertionSort _ _).trans hperm).trans
        (List.perm_insertionSort _ _).symm)
      (List.sorted_insertionSort _ _) (List.sorted_insertionSort _ _)

/-- A two-entry registry, registered in descending name order, used by
the C9 witness. -/
def wRegBA : Plugins := ⟨some [("b", wFactoryNilOk), ("a", wFactoryNilOk)]⟩

/-- Witness for C9 at a concrete registry holding "b" then "a": the
output of `Registered` is sorted and duplicate-free and contains "a". -/
theorem Registered_spec_witness :
    (registryKeys wRegBA).Nodup
    ∧ (Plugins.Registered wRegBA).Sorted (fun a b => a ≤ b)
    ∧ (Plugins.Registered wRegBA).Nodup
    ∧ ("a" ∈ Plugins.Registered wRegBA ↔ "a" ∈ registryKeys wRegBA) :=
  ⟨by decide, (Registered_spec wRegBA (by decide)).1,
   (Registered_spec wRegBA (by decide)).2.1,
   (Registered_spec wRegBA (by decide)).2.2.1 "a"⟩

theorem initialize_none_fst (pp : PluginInitializers) :
    (PluginInitializers.Initialize pp none).1 = none := by
  induction pp with
  | nil => rfl
  | cons p rest ih => simpa [PluginInitializers.Initialize] using ih

theorem initialize_trace_length (pp : PluginInitializers) (plugin : Option Plugin) :
    (PluginInitializers.Initialize pp plugin).2.length = pp.length := by
  induction pp generalizing plugin with
  | nil => rfl
  | cons p rest ih => simp [PluginInitializers.Initialize, ih]

/-- C2: `InitPlugin` on an empty name returns `(nil, nil)`; on a name
absent from the registry it returns the unknown-plugin error; on a
registered name that the enablement predicate rejects it returns
`(nil, nil)` with no error; and on a factory invocation failure it
returns no plugin and the wrapped error naming the plugin. -/
theorem InitPlugin_error_cases (ps : Plugins) (enabledFn : PluginEnabledFunc)
    (name : String) (config : Reader) (pp : PluginInitializers) :
    (name = "" → (ps.InitPlugin enabledFn name config pp).1 = (none, none))
    ∧ (name ≠ "" → ps.lookupFactory name = none →
        (ps.InitPlugin enabledFn name config pp).1
          = (none, some (Err.unknownAdmissionPlugin name)))
    ∧ (∀ f c1 c2, name ≠ "" → ps.lookupFactory name = some f →
        splitStream config = Except.ok (c1, c2) → enabledFn name c1 = false →
        (ps.InitPlugin enabledFn name config pp).1 = (none, none))
    ∧ (∀ f c1 c2 p e, name ≠ "" → ps.lookupFactory name = some f →
        splitStream config = Except.ok (c1, c2) → enabledFn name c1 = true →
        f c2 = (p, some e) →
        (ps.InitPlugin enabledFn name config pp).1
          = (none, some (Err.couldNotInitPlugin name e))) := by
  refine ⟨?_, ?_, ?_, ?_⟩
  · intro h
    simp [Plugins.InitPlugin, h]
  · intro hname hlook
    simp [Plugins.InitPlugin, Plugins.getPlugin, hname, hlook]
  · intro f c1 c2 hname hlook hsplit hen
    simp [Plugins.InitPlugin, Plugins.getPlugin, hname, hlook, hsplit, hen,
      initialize_none_fst, ValidateInitialization]
  · intro f c1 c2 p e hname hlook hsplit hen hf
    simp [Plugins.InitPlugin, Plugins.getPlugin, hname, hlook, hsplit, hen, hf]

/-- A plugin with no optional capability, used by concrete witnesses. -/
def wNoCapPlugin : Plugin :=
  { Handles := fun _ => true
    Admit := none
    Validate := none
    ValidateInitialization := none }

/-- A factory that successfully returns `wNoCapPlugin`. -/
def wFactoryPlug : Factory := fun _ => (some wNoCapPlugin, none)

/-- A factory that fails with an error. -/
def wFactoryFailing : Factory := fun _ => (none, some (Err.msg "factory blew up"))

/-- A registry holding plugin name "p". -/
def wRegP : Plugins := ⟨some [("p", wFactoryPlug)]⟩

/-- A registry holding the failing factory under name "f". -/
def wRegF : Plugins := ⟨some [("f", wFactoryFailing)]⟩

/-- An enablement predicate that disables every plugin. -/
def wDisabledFn : PluginEnabledFunc := fun _ _ => false

/-- Witness for C2: the empty name, an unknown name, a disabled name
and a failing factory, each at a concrete registry. -/
theorem InitPlugin_error_cases_witness :
    (wRegP.InitPlugin PluginEnabledFnDefault "" Reader.nilReader []).1 = (none, none)
    ∧ (wRegP.InitPlugin PluginEnabledFnDefault "ghost" Reader.nilReader []).1
        = (none, some (Err.unknownAdmissionPlugin "ghost"))
    ∧ (wRegP.InitPlugin wDisabledFn "p" Reader.nilReader []).1 = (none, none)
    ∧ (wRegF.InitPlugin PluginEnabledFnDefault "f" Reader.nilReader []).1
        = (none, some (Err.couldNotInitPlugin "f" (Err.msg "factory blew up"))) :=
  ⟨(InitPlugin_error_cases wRegP PluginEnabledFnDefault "" Reader.nilReader []).1 rfl,
   (InitPlugin_error_cases wRegP PluginEnabledFnDefault "ghost" Reader.nilReader []).2.1
     (by decide) rfl,
   (InitPlugin_error_cases wRegP wDisabledFn "p" Reader.nilReader []).2.2.1
     wFactoryPlug Reader.nilReader Reader.nilReader (by decide) rfl rfl rfl,
   (InitPlugin_error_cases wRegF PluginEnabledFnDefault "f" Reader.nilReader []).2.2.2
     wFactoryFailing Reader.nilReader Reader.nilReader none (Err.msg "factory blew up")
     (by decide) rfl rfl rfl rfl⟩

/-- C3 counterexample: with plugin "p" registered but disabled by the
enablement predicate, `InitPlugin` still invokes the initializer set —
the single initializer member is called once, with the nil plugin —
contradicting the claim that initializers are not invoked for disabled
names.  (The Go return value is still `(nil, nil)`.) -/
theorem InitPlugin_disabled_initializer_counterexample :
    (wRegP.InitPlugin wDisabledFn "p" Reader.nilReader [fun q => q]).2 = [none]
    ∧ (wRegP.InitPlugin wDisabledFn "p" Reader.nilReader [fun q => q]).2 ≠ []
    ∧ (wRegP.InitPlugin wDisabledFn "p" Reader.nilReader [fun q => q]).1
        = (none, none) := by
  refine ⟨rfl, ?_, rfl⟩
  intro h
  rw [show (wRegP.InitPlugin wDisabledFn "p" Reader.nilReader [fun q => q]).2
      = [none] from rfl] at h
  exact List.cons_ne_nil _ _ h

/-- C3 (amended): the initializer set is invoked exactly when the name
is nonempty and `getPlugin` reports the plugin found with no error —
including the disabled case and a factory that returned a nil plugin
without error, where the initializers receive the nil plugin — and it
is not invoked for empty, unknown, or errored names.  When invoked,
every member of the set runs exactly once, in order, on the
instantiated plugin. -/
theorem InitPlugin_initializer_trace_spec (ps : Plugins)
    (enabledFn : PluginEnabledFunc) (name : String) (config : Reader)
    (pp : PluginInitializers) :
    (name = "" → (ps.InitPlugin enabledFn name config pp).2 = [])
    ∧ (name ≠ "" → ps.lookupFactory name = none →
        (ps.InitPlugin enabledFn name config pp).2 = [])
    ∧ (∀ e, name ≠ "" → (ps.getPlugin enabledFn name config).2.2 = some e →
        (ps.InitPlugin enabledFn name config pp).2 = [])
    ∧ (name ≠ "" → (ps.getPlugin enabledFn name config).2.1 = true →
        (ps.getPlugin enabledFn name config).2.2 = none →
        (ps.InitPlugin enabledFn name config pp).2
            = (PluginInitializers.Initialize pp
                (ps.getPlugin enabledFn name config).1).2
          ∧ (ps.InitPlugin enabledFn name config pp).2.length = pp.length) := by
  refine ⟨?_, ?_, ?_, ?_⟩
  · intro h
    simp [Plugins.InitPlugin, h]
  · intro hname hlook
    simp [Plugins.InitPlugin, Plugins.getPlugin, hname, hlook]
  · intro e hname hgerr
    rcases hg : ps.getPlugin enabledFn name config with ⟨pl, fd, er⟩
    rw [hg] at hgerr
    simp only at hgerr
    subst hgerr
    simp [Plugins.InitPlugin, hname, hg]
  · intro hname hfd herr
    rcases hg : ps.getPlugin enabledFn name config with ⟨pl, fd, er⟩
    rw [hg] at hfd herr
    simp only at hfd herr
    subst hfd
    subst herr
    simp only [Plugins.InitPlugin, hname, if_neg hname, hg]
    cases hv : ValidateInitialization (PluginInitializers.Initialize pp pl).1 with
    | none => simp [hv, initialize_trace_length]
    | some e => simp [hv, initialize_trace_length]

/-- Witness for C3 (amended) at a concrete registry: for the enabled
registered name "p", the trace equals the initializer run on the
instantiated plugin and has one entry per initializer member. -/
theorem InitPlugin_initializer_trace_witness :
    (wRegP.InitPlugin PluginEnabledFnDefault "p" Reader.nilReader [fun q => q]).2
        = (PluginInitializers.Initialize [fun q => q]
            (wRegP.getPlugin PluginEnabledFnDefault "p" Reader.nilReader).1).2
    ∧ (wRegP.InitPlugin PluginEnabledFnDefault "p" Reader.nilReader [fun q => q]).2.length
        = 1 :=
  (InitPlugin_initializer_trace_spec wRegP PluginEnabledFnDefault "p"
    Reader.nilReader [fun q => q]).2.2.2 (by decide) rfl rfl

/-- C7: for a successfully instantiated plugin, `ValidateInitialization`
runs on the post-injection instance; if it returns an error, the plugin
is dropped and `InitPlugin` fails with the wrapped failed-to-initialize
error naming the plugin; an instance not implementing the capability is
accepted unchanged with no error. -/
theorem InitPlugin_validateInitialization_spec (ps : Plugins)
    (enabledFn : PluginEnabledFunc) (name : String) (config : Reader)
    (pp : PluginInitializers)
    (hname : name ≠ "")
    (hfound : (ps.getPlugin enabledFn name config).2.1 = true)
    (herr : (ps.getPlugin enabledFn name config).2.2 = none) :
    (∀ e, ValidateInitialization
          (PluginInitializers.Initialize pp
            (ps.getPlugin enabledFn name config).1).1 = some e →
        (ps.InitPlugin enabledFn name config pp).1
          = (none, some (Err.failedToInitialize name e)))
    ∧ (∀ p, (PluginInitializers.Initialize pp
          (ps.getPlugin enabledFn name config).1).1 = some p →
        p.ValidateInitialization = none →
        (ps.InitPlugin enabledFn name config pp).1 = (some p, none)) := by
  rcases hg : ps.getPlugin enabledFn name config with ⟨pl, fd, er⟩
  rw [hg] at hfound herr
  simp only at hfound herr
  subst hfound
  subst herr
  constructor
  · intro e hv
    simp only at hv
    simp [Plugins.InitPlugin, hname, hg, hv]
  · intro p hp hpv
    simp only at hp
    have hv : ValidateInitialization (PluginInitializers.Initialize pp pl).1 = none := by
      rw [hp]
      simp [ValidateInitialization, hpv]
    simp [Plugins.InitPlugin, hname, hg, hv, hp, ValidateInitialization, hpv]

/-- A plugin whose self-validation capability reports failure. -/
def wSelfFailPlugin : Plugin :=
  { Handles := fun _ => true
    Admit := none
    Validate := none
    ValidateInitialization := some (some (Err.msg "not wired up")) }

/-- A registry holding the self-validation-failing plugin under "v". -/
def wRegV : Plugins := ⟨some [("v", fun _ => (some wSelfFailPlugin, none))]⟩

/-- Witness for C7: the plugin registered under "v" fails
self-validation and `InitPlugin` returns the wrapped error with no
plugin; the capability-free plugin under "p" is accepted unchanged. -/
theorem InitPlugin_validateInitialization_witness :
    (wRegV.InitPlugin PluginEnabledFnDefault "v" Reader.nilReader []).1
        = (none, some (Err.failedToInitialize "v" (Err.msg "not wired up")))
    ∧ (wRegP.InitPlugin PluginEnabledFnDefault "p" Reader.nilReader []).1
        = (some wNoCapPlugin, none) :=
  ⟨(InitPlugin_validateInitialization_spec wRegV PluginEnabledFnDefault "v"
      Reader.nilReader [] (by decide) rfl rfl).1 (Err.msg "not wired up") rfl,
   (InitPlugin_validateInitialization_spec wRegP PluginEnabledFnDefault "p"
      Reader.nilReader [] (by decide) rfl rfl).2 wNoCapPlugin rfl rfl⟩

/-- Per-name processing of `NewFromPlugins`: fetch the config, run
`InitPlugin`, yielding the (possibly nil) plugin instance and the
(possibly nil) error for that name.  Iterations of the loop are
independent, so this fully determines the loop's behaviour. -/
def pluginFor (ps : Plugins) (enabledFn : PluginEnabledFunc)
    (configProvider : ConfigProvider) (pluginInitializer : PluginInitializers)
    (name : String) : Option Plugin × Option Err :=
  match configProvider name with
  | Except.error e => (none, some e)
  | Except.ok cfg => (ps.InitPlugin enabledFn name cfg pluginInitializer).1

/-- The error of the first name in the list whose processing fails,
if any. -/
def firstConstructionError (ps : Plugins) (enabledFn : PluginEnabledFunc)
    (configProvider : ConfigProvider) (pluginInitializer : PluginInitializers) :
    List String → Option Err
  | [] => none
  | n :: rest =>
    match (pluginFor ps enabledFn configProvider pluginInitializer n).2 with
    | some e => some e
    | none => firstConstructionError ps enabledFn configProvider pluginInitializer rest

/-- The handler list a successful construction produces: one entry per
name whose instantiated plugin is non-nil, in list order, each wrapped
by the decorator when one is supplied. -/
def constructedChain (ps : Plugins) (enabledFn : PluginEnabledFunc)
    (configProvider : ConfigProvider) (pluginInitializer : PluginInitializers)
    (decorator : Option Decorator) : List String → List Plugin
  | [] => []
  | n :: rest =>
    match (pluginFor ps enabledFn configProvider pluginInitializer n).1 with
    | some p => decoratePlugin decorator p n
        :: constructedChain ps enabledFn configProvider pluginInitializer decorator rest
    | none => constructedChain ps enabledFn configProvider pluginInitializer decorator rest

/-- The mutation-capable tally: the names whose (undecorated)
instantiated plugin implements `MutationInterface`, in list order. -/
def mutationTally (ps : Plugins) (enabledFn : PluginEnabledFunc)
    (configProvider : ConfigProvider) (pluginInitializer : PluginInitializers) :
    List String → List String
  | [] => []
  | n :: rest =>
    match (pluginFor ps enabledFn configProvider pluginInitializer n).1 with
    | some p =>
      if p.Admit.isSome then
        n :: mutationTally ps enabledFn configProvider pluginInitializer rest
      else mutationTally ps enabledFn configProvider pluginInitializer rest
    | none => mutationTally ps enabledFn configProvider pluginInitializer rest

/-- The validation-capable tally: the names whose (undecorated)
instantiated plugin implements `ValidationInterface`, in list order. -/
def validationTally (ps : Plugins) (enabledFn : PluginEnabledFunc)
    (configProvider : ConfigProvider) (pluginInitializer : PluginInitializers) :
    List String → List String
  | [] => []
  | n :: rest =>
    match (pluginFor ps enabledFn configProvider pluginInitializer n).1 with
    | some p =>
      if p.Validate.isSome then
        n :: validationTally ps enabledFn configProvider pluginInitializer rest
      else validationTally ps enabledFn configProvider pluginInitializer rest
    | none => validationTally ps enabledFn configProvider pluginInitializer rest

theorem newFromPluginsLoop_characterization (ps : Plugins)
    (enabledFn : PluginEnabledFunc) (configProvider : ConfigProvider)
    (pluginInitializer : PluginInitializers) (decorator : Option Decorator)
    (names : List String) (handlers : List Plugin) (m v : List String) :
    newFromPluginsLoop ps enabledFn configProvider pluginInitializer decorator
        names handlers m v
      = match firstConstructionError ps enabledFn configProvider pluginInitializer
            names with
        | some e => Except.error e
        | none =>
          Except.ok
            (handlers ++ constructedChain ps enabledFn configProvider
                pluginInitializer decorator names,
             m ++ mutationTally ps enabledFn configProvider pluginInitializer names,
             v ++ validationTally ps enabledFn configProvider pluginInitializer
                names) := by
  induction names generalizing handlers m v with
  | nil => simp [newFromPluginsLoop, firstConstructionError, constructedChain,
      mutationTally, validationTally]
  | cons n rest ih =>
    cases hc : configProvider n with
    | error e =>
      have hpf : (pluginFor ps enabledFn configProvider pluginInitializer n).2
          = some e := by
        simp [pluginFor, hc]
      simp [newFromPluginsLoop, firstConstructionError, hc, hpf]
    | ok cfg =>
      have hpf : pluginFor ps enabledFn configProvider pluginInitializer n
          = (ps.InitPlugin enabledFn n cfg pluginInitializer).1 := by
        simp [pluginFor, hc]
      rcases hi : (ps.InitPlugin enabledFn n cfg pluginInitializer).1 with ⟨pl, er⟩
      rw [hi] at hpf
      cases er with
      | some e =>
        simp [newFromPluginsLoop, firstConstructionError, hc, hi, hpf]
      | none =>
        cases pl with
        | none =>
          simp [newFromPluginsLoop, firstConstructionError, constructedChain,
            mutationTally, validationTally, hc, hi, hpf, ih]
        | some plugin =>
          simp only [newFromPluginsLoop, hc, hi, ih]
          simp only [firstConstructionError, constructedChain, mutationTally,
            validationTally, hpf]
          cases hfe : firstConstructionError ps enabledFn configProvider
              pluginInitializer rest with
          | some e => simp
          | none =>
            simp only
            cases hA : plugin.Admit.isSome <;> cases hV : plugin.Validate.isSome <;>
              simp [hA, hV]

theorem firstConstructionError_eq_none_iff (ps : Plugins)
    (enabledFn : PluginEnabledFunc) (configProvider : ConfigProvider)
    (pluginInitializer : PluginInitializers) (names : List String) :
    firstConstructionError ps enabledFn configProvider pluginInitializer names = none
      ↔ ∀ n ∈ names,
          (pluginFor ps enabledFn configProvider pluginInitializer n).2 = none := by
  induction names with
  | nil => simp [firstConstructionError]
  | cons n rest ih =>
    cases hn : (pluginFor ps enabledFn configProvider pluginInitializer n).2 with
    | some e => simp [firstConstructionError, hn]
    | none => simp [firstConstructionError, hn, ih]

/-- C4: `NewFromPlugins` is all-or-nothing.  A name's processing fails
iff its config fetch or its instantiation errors (conjunct 1 relates
this to the first such error); if any name in the list fails, the whole
construction returns that first error and no chain (conjunct 2); if no
name fails, it returns exactly the chain of the non-nil instantiated
plugins, in list order, each wrapped by the decorator when one is
supplied (conjunct 3). -/
theorem NewFromPlugins_allOrNothing (ps : Plugins) (enabledFn : PluginEnabledFunc)
    (pluginNames : List String) (configProvider : ConfigProvider)
    (pluginInitializer : PluginInitializers) (decorator : Option Decorator) :
    (firstConstructionError ps enabledFn configProvider pluginInitializer
        pluginNames = none
      ↔ ∀ n ∈ pluginNames,
          (pluginFor ps enabledFn configProvider pluginInitializer n).2 = none)
    ∧ (∀ e, firstConstructionError ps enabledFn configProvider pluginInitializer
          pluginNames = some e →
        ps.NewFromPlugins enabledFn pluginNames configProvider pluginInitializer
          decorator = Except.error e)
    ∧ (firstConstructionError ps enabledFn configProvider pluginInitializer
          pluginNames = none →
        ps.NewFromPlugins enabledFn pluginNames configProvider pluginInitializer
          decorator
          = Except.ok
              (constructedChain ps enabledFn configProvider pluginInitializer
                decorator pluginNames,
               mutationTally ps enabledFn configProvider pluginInitializer
                pluginNames,
               validationTally ps enabledFn configProvider pluginInitializer
                pluginNames)) := by
  refine ⟨firstConstructionError_eq_none_iff _ _ _ _ _, ?_, ?_⟩
  · intro e he
    rw [Plugins.NewFromPlugins, newFromPluginsLoop_characterization, he]
  · intro he
    rw [Plugins.NewFromPlugins, newFromPluginsLoop_characterization, he]
    simp

/-- A config provider supplying the nil reader to every plugin. -/
def wConfigProvider : ConfigProvider := fun _ => Except.ok Reader.nilReader

/-- Witness for C4: with only "p" registered, constructing from
`["ghost"]` returns the unknown-plugin error and no chain, while
constructing from `["p"]` succeeds with the one-plugin chain. -/
theorem NewFromPlugins_allOrNothing_witness :
    wRegP.NewFromPlugins PluginEnabledFnDefault ["ghost"] wConfigProvider [] none
        = Except.error (Err.unknownAdmissionPlugin "ghost")
    ∧ wRegP.NewFromPlugins PluginEnabledFnDefault ["p"] wConfigProvider [] none
        = Except.ok
            (constructedChain wRegP PluginEnabledFnDefault wConfigProvider [] none
              ["p"],
             mutationTally wRegP PluginEnabledFnDefault wConfigProvider [] ["p"],
             validationTally wRegP PluginEnabledFnDefault wConfigProvider [] ["p"]) :=
  ⟨(NewFromPlugins_allOrNothing wRegP PluginEnabledFnDefault ["ghost"]
      wConfigProvider [] none).2.1 (Err.unknownAdmissionPlugin "ghost") rfl,
   (NewFromPlugins_allOrNothing wRegP PluginEnabledFnDefault ["p"]
      wConfigProvider [] none).2.2 rfl⟩

/-- C10: the mutation/validation tallies of `NewFromPlugins` are
computed from the undecorated plugin instances: for every decorator the
construction's error behaviour and tallies coincide with the
decorator-free run (conjunct 1), and on success the chain holds the
decorated wrappers while the tallies are the undecorated capability
classification, independent of which capabilities the wrappers
implement (conjunct 2). -/
theorem NewFromPlugins_decorator_classification (ps : Plugins)
    (enabledFn : PluginEnabledFunc) (pluginNames : List String)
    (configProvider : ConfigProvider) (pluginInitializer : PluginInitializers)
    (d : Decorator) :
    Except.map (fun r => r.2)
        (ps.NewFromPlugins enabledFn pluginNames configProvider pluginInitializer
          (some d))
      = Except.map (fun r => r.2)
          (ps.NewFromPlugins enabledFn pluginNames configProvider pluginInitializer
            none)
    ∧ (∀ chain m v,
        ps.NewFromPlugins enabledFn pluginNames configProvider pluginInitializer
            (some d) = Except.ok (chain, m, v) →
        chain = constructedChain ps enabledFn configProvider pluginInitializer
            (some d) pluginNames
        ∧ m = mutationTally ps enabledFn configProvider pluginInitializer pluginNames
        ∧ v = validationTally ps enabledFn configProvider pluginInitializer
            pluginNames) := by
  constructor
  · rw [Plugins.NewFromPlugins, Plugins.NewFromPlugins,
      newFromPluginsLoop_characterization, newFromPluginsLoop_characterization]
    cases hfe : firstConstructionError ps enabledFn configProvider pluginInitializer
        pluginNames with
    | some e => simp
    | none => simp [Except.map]
  · intro chain m v h
    rw [Plugins.NewFromPlugins, newFromPluginsLoop_characterization] at h
    cases hfe : firstConstructionError ps enabledFn configProvider pluginInitializer
        pluginNames with
    | some e => rw [hfe] at h; exact absurd h (by simp)
    | none =>
      rw [hfe] at h
      simp only [List.nil_append, Except.ok.injEq, Prod.mk.injEq] at h
      exact ⟨h.1.symm, h.2.1.symm, h.2.2.symm⟩

/-- A decorator whose wrapper implements neither mutation nor
validation, whatever the wrapped plugin implements. -/
def wStripDecorator : Decorator := fun p _ =>
  { Handles := p.Handles
    Admit := none
    Validate := none
    ValidateInitialization := none }

/-- A factory returning the mutation-only plugin `wMutRejecting`. -/
def wFactoryMut : Factory := fun _ => (some wMutRejecting, none)

/-- A registry holding the mutation-only plugin under "m". -/
def wRegM : Plugins := ⟨some [("m", wFactoryMut)]⟩

/-- Witness for C10: decorating the mutation-only plugin "m" with a
capability-stripping wrapper still tallies "m" as mutation-capable
(classification from the undecorated instance) while the chain holds
the stripped wrapper. -/
theorem NewFromPlugins_decorator_classification_witness :
    ([wStripDecorator wMutRejecting "m"]
        = constructedChain wRegM PluginEnabledFnDefault wConfigProvider []
            (some wStripDecorator) ["m"])
    ∧ ["m"] = mutationTally wRegM PluginEnabledFnDefault wConfigProvider [] ["m"]
    ∧ ([] : List String)
        = validationTally wRegM PluginEnabledFnDefault wConfigProvider [] ["m"] :=
  (NewFromPlugins_decorator_classification wRegM PluginEnabledFnDefault ["m"]
    wConfigProvider [] wStripDecorator).2
    [wStripDecorator wMutRejecting "m"] ["m"] [] rfl

/-- Successful registrations preserve distinctness of the registry
keys: every state reachable through `Register` satisfies the
hypothesis of the `Registered` theorem (as a Go map it cannot hold
duplicate keys, and the fatal path bars re-registration). -/
theorem Register_preserves_nodup (ps : Plugins) (name : String) (f : Factory)
    (h : (registryKeys ps).Nodup) :
    ∀ ps1, ps.Register name f = RegisterOutcome.ok ps1 →
      (registryKeys ps1).Nodup := by
  intro ps1 h1
  match hr : ps.registry with
  | none =>
    simp only [Plugins.Register, hr, RegisterOutcome.ok.injEq] at h1
    cases h1
    simp [registryKeys]
  | some reg =>
    simp only [Plugins.Register, hr] at h1
    cases hf : registryFind reg name with
    | some f0 => rw [hf] at h1; exact RegisterOutcome.noConfusion h1
    | none =>
      simp only [hf, RegisterOutcome.ok.injEq] at h1
      cases h1
      have hmem : name ∉ reg.map Prod.fst :=
        (registryFind_eq_none_iff reg name).mp hf
      have h' : (reg.map Prod.fst).Nodup := by simpa [registryKeys, hr] using h
      simp [registryKeys, List.nodup_append, h', hmem]

end Admission
